import Mathlib

/-!
Shallow embedding of the `unicorn_debugger` repository (src/engine.rs,
src/program.rs, src/debugger.rs) and proofs about its breakpoint
controller, interrupt shim, loader and command parser.

Machine registers are 16-bit values read into `u64`; they are modelled as
`Nat`, with explicit `% 2 ^ 64` where u64 arithmetic may wrap.  The
`HashMap<u64, EngineBreak>` breakpoint registry is modelled as an
association list whose `insert` removes any previous entry for the key,
mirroring `HashMap::insert`'s replace semantics.  Rust panics and engine
halts are recorded as explicit fields of the hook results; fallible
parsing returns `Option`/`Except`.
-/

/-- Mirrors `EngineBreak` in src/engine.rs: an address plus the sense bit
`intr` ("is currently being interrupted"). -/
structure EngineBreak where
  addr : Nat
  intr : Bool
deriving DecidableEq

/-- Mirrors `EngineBreak::new`: a fresh breakpoint with `intr = false`. -/
def EngineBreak.new (addr : Nat) : EngineBreak :=
  { addr := addr, intr := false }

/-- Mirrors `EngineData` in src/engine.rs (the session-constant `program`
field is never read by the hooks and is omitted from the hook state). -/
structure EngineData where
  breaks : List (Nat × EngineBreak)
  whileBreak : Option (Bool × Nat)
  exited : Bool
  verbose : Bool
deriving DecidableEq

/-- Mirrors `EngineData::new`: empty registry, no loop session, not
exited, not verbose. -/
def EngineData.new : EngineData :=
  { breaks := [], whileBreak := none, exited := false, verbose := false }

/-- Mirrors `EngineData::add_break`: `self.breaks.insert(ebreak.addr, ebreak)`,
i.e. insert-replacing any previous entry for that address. -/
def EngineData.addBreak (d : EngineData) (e : EngineBreak) : EngineData :=
  { d with breaks := (e.addr, e) :: d.breaks.filter (fun p => p.1 != e.addr) }

/-- Mirrors `EngineData::get_break`: lookup in the registry. -/
def EngineData.getBreak (d : EngineData) (addr : Nat) : Option EngineBreak :=
  d.breaks.lookup addr

/-- Mirrors the `ebreak.intr = !ebreak.intr` write through
`EngineData::get_break_mut`: flip the sense bit of the entry at `addr`. -/
def EngineData.flipBreak (d : EngineData) (addr : Nat) : EngineData :=
  { d with breaks :=
      d.breaks.map (fun p =>
        if p.1 = addr then (p.1, { p.2 with intr := ! p.2.intr }) else p) }

/-- Mirrors `self.while_break.is_some_and(|wb| wb.1 == addr)`. -/
def whileTargetIs (wb : Option (Bool × Nat)) (addr : Nat) : Bool :=
  match wb with
  | some p => p.2 == addr
  | none => false

/-- Mirrors `self.while_break.is_some_and(|wb| wb.0)`. -/
def whileStarted (wb : Option (Bool × Nat)) : Bool :=
  match wb with
  | some p => p.1
  | none => false

/-- Result of one per-instruction code-hook invocation: the updated
session state, whether `emu_stop` was requested, and the verbose log
(the addresses whose decoded instruction was printed). -/
structure HookOut where
  data : EngineData
  halt : Bool
  log : List Nat
deriving DecidableEq

/-- Mirrors the code hook closure registered in `Engine::new`
(src/engine.rs lines 242-269).  Verbose logging happens first; then, if a
breakpoint is registered at `addr` and its sense bit is clear, the run is
halted, the loop session is armed when its target is `addr`, and the
sense bit flips; if the bit was set it only flips; with no breakpoint, a
started loop session stops the run and is cleared. -/
def codeHook (d : EngineData) (addr : Nat) : HookOut :=
  let log := if d.verbose then [addr] else []
  match d.getBreak addr with
  | some b =>
    if b.intr = false then
      let d1 :=
        if whileTargetIs d.whileBreak addr then
          { d with whileBreak := some (true, addr) }
        else d
      { data := d1.flipBreak addr, halt := true, log := log }
    else
      { data := d.flipBreak addr, halt := false, log := log }
  | none =>
    if whileStarted d.whileBreak then
      { data := { d with whileBreak := none }, halt := true, log := log }
    else
      { data := d, halt := false, log := log }

/-- Result of one software-interrupt hook invocation: updated session
state, whether `emu_stop` was requested, whether a Rust `panic!` was
reached, and the number reported as unimplemented (the interrupt number,
or the `ah` selector under interrupt 0x21). -/
structure IntrOut where
  data : EngineData
  halt : Bool
  panicked : Bool
  reported : Option Nat
deriving DecidableEq

/-- Mirrors the interrupt hook closure registered in `Engine::new`
(src/engine.rs lines 272-324).  The register/memory effects of the
handled services (vector set/get, DOS version, console write, the fixed
allocation answers) do not touch the session state and are not modelled;
only the session-state and control effects are.  Note the `ah = 0x4a`
branch: an `ax` other than 0x4a01/0x4a02 hits a `panic!`, not the
exit-and-halt path. -/
def intrHook (d : EngineData) (num ax : Nat) : IntrOut :=
  if num = 0x21 then
    let ah := ax >>> 8
    if ah = 0x25 then
      { data := d, halt := false, panicked := false, reported := none }
    else if ah = 0x30 then
      { data := d, halt := false, panicked := false, reported := none }
    else if ah = 0x35 then
      { data := d, halt := false, panicked := false, reported := none }
    else if ah = 0x40 then
      { data := d, halt := false, panicked := false, reported := none }
    else if ah = 0x4a then
      if ax = 0x4a01 ∨ ax = 0x4a02 then
        { data := d, halt := false, panicked := false, reported := none }
      else
        { data := d, halt := false, panicked := true, reported := none }
    else if ah = 0x4c then
      { data := { d with exited := true }, halt := true, panicked := false,
        reported := none }
    else
      { data := { d with exited := true }, halt := true, panicked := false,
        reported := some ah }
  else
    { data := { d with exited := true }, halt := true, panicked := false,
      reported := some num }

/-- Mirrors `Engine::set_verbose`. -/
def Engine.set_verbose (d : EngineData) (v : Bool) : EngineData :=
  { d with verbose := v }

/-- Mirrors `Engine::add_break`: register a fresh breakpoint. -/
def Engine.add_break (d : EngineData) (addr : Nat) : EngineData :=
  d.addBreak (EngineBreak.new addr)

/-- Mirrors `Engine::add_while_break`: register a fresh breakpoint at the
target and open the loop session as `(started := false, addr)`. -/
def Engine.add_while_break (d : EngineData) (addr : Nat) : EngineData :=
  { d.addBreak (EngineBreak.new addr) with whileBreak := some (false, addr) }

/-- The state after `n` consecutive code-hook invocations at `addr`. -/
def visitN (d : EngineData) (addr : Nat) : Nat → EngineData
  | 0 => d
  | n + 1 => (codeHook (visitN d addr n) addr).data

/-- Whether the `(k+1)`-th consecutive code-hook invocation at `addr`
(`k` counted from 0) requests a halt. -/
def haltOnVisit (d : EngineData) (addr k : Nat) : Bool :=
  (codeHook (visitN d addr k) addr).halt

/-- The sense bit of the breakpoint registered at `addr`, if any. -/
def intrAt (d : EngineData) (addr : Nat) : Option Bool :=
  (d.getBreak addr).map (fun b => b.intr)

/-- One state-mutating engine operation, for stating invariants over
everything that can touch `EngineData`. -/
inductive EngineOp where
  | code (addr : Nat)
  | intr (num ax : Nat)
  | addBreak (addr : Nat)
  | addWhileBreak (addr : Nat)
  | setVerbose (v : Bool)

/-- Apply one engine operation to the session state. -/
def applyOp (d : EngineData) : EngineOp → EngineData
  | .code addr => (codeHook d addr).data
  | .intr num ax => (intrHook d num ax).data
  | .addBreak addr => Engine.add_break d addr
  | .addWhileBreak addr => Engine.add_while_break d addr
  | .setVerbose v => Engine.set_verbose d v

/-- What a debugger execution command does to the session. -/
inductive SessionStep where
  | endSession
  | enterEngine
deriving DecidableEq

/-- Mirrors `Debugger::run` (src/debugger.rs lines 163-168): after exit,
`exit(0)` ends the session without entering the engine. -/
def Debugger.runStep (exited : Bool) : SessionStep :=
  if exited then .endSession else .enterEngine

/-- Mirrors `Debugger::cont` (src/debugger.rs lines 170-176). -/
def Debugger.contStep (exited : Bool) : SessionStep :=
  if exited then .endSession else .enterEngine

/-- Mirrors `Debugger::next` (src/debugger.rs lines 178-184). -/
def Debugger.nextStep (exited : Bool) : SessionStep :=
  if exited then .endSession else .enterEngine

/-- Mirrors `LittleEndian::read_u16(&bytes[off..off+2])` in
src/program.rs: the slice panics (modelled as `none`) unless
`off + 2 ≤ bytes.length`; otherwise the two bytes combine little-endian. -/
def readU16LE (bytes : List Nat) (off : Nat) : Option Nat :=
  if off + 2 ≤ bytes.length then
    some (bytes.getD off 0 + 256 * bytes.getD (off + 1) 0)
  else none

/-- Mirrors `Header` in src/program.rs. -/
structure Header where
  last_page_bytes : Nat
  pages_in_file : Nat
  relocations : Nat
  header_size : Nat
  min_allocation : Nat
  max_allocation : Nat
  initial_ss : Nat
  initial_sp : Nat
  checksum : Nat
  initial_ip : Nat
  initial_cs : Nat
  relocation_table : Nat
  overlay : Nat
deriving DecidableEq

/-- Mirrors `Header::new` (src/program.rs lines 50-67): thirteen
little-endian 16-bit reads at fixed offsets 2..26; bytes 0 and 1 (the
magic tag) are never read. -/
def Header.new (bytes : List Nat) : Option Header := do
  let last_page_bytes ← readU16LE bytes 2
  let pages_in_file ← readU16LE bytes 4
  let relocations ← readU16LE bytes 6
  let header_size ← readU16LE bytes 8
  let min_allocation ← readU16LE bytes 10
  let max_allocation ← readU16LE bytes 12
  let initial_ss ← readU16LE bytes 14
  let initial_sp ← readU16LE bytes 16
  let checksum ← readU16LE bytes 18
  let initial_ip ← readU16LE bytes 20
  let initial_cs ← readU16LE bytes 22
  let relocation_table ← readU16LE bytes 24
  let overlay ← readU16LE bytes 26
  pure { last_page_bytes, pages_in_file, relocations, header_size,
         min_allocation, max_allocation, initial_ss, initial_sp, checksum,
         initial_ip, initial_cs, relocation_table, overlay }

/-- Mirrors `Program` in src/program.rs. -/
structure Program where
  data : List Nat
  start : Nat
  header : Header
deriving DecidableEq

/-- Mirrors `Program::new` (src/program.rs lines 13-23): parse the header
(a failure there aborts loading), then drain `header_size * 16` bytes off
the front of the image; `drain` panics (modelled as `none`) when the
range exceeds the buffer. -/
def Program.new (bytes : List Nat) (start : Nat) : Option Program :=
  match Header.new bytes with
  | none => none
  | some header =>
    if header.header_size * 16 ≤ bytes.length then
      some { data := bytes.drop (header.header_size * 16), start := start,
             header := header }
    else none

/-- The little-endian 16-bit value at byte offset `off` of a buffer. -/
def le16At (bytes : List Nat) (off : Nat) : Nat :=
  bytes.getD off 0 + 256 * bytes.getD (off + 1) 0

/-- One hexadecimal digit's value, as accepted by
`u64::from_str_radix(_, 16)`. -/
def hexDigitVal (c : Char) : Option Nat :=
  if '0' ≤ c ∧ c ≤ '9' then some (c.toNat - '0'.toNat)
  else if 'a' ≤ c ∧ c ≤ 'f' then some (c.toNat - 'a'.toNat + 10)
  else if 'A' ≤ c ∧ c ≤ 'F' then some (c.toNat - 'A'.toNat + 10)
  else none

/-- Accumulate hexadecimal digits left to right; fails on the first
non-digit. -/
def hexCore : List Char → Nat → Option Nat
  | [], acc => some acc
  | c :: cs, acc =>
    match hexDigitVal c with
    | some dg => hexCore cs (acc * 16 + dg)
    | none => none

/-- Mirrors `u64::from_str_radix(s, 16)`: an optional leading `+`, then a
nonempty run of hexadecimal digits; overflow past `u64` is an error.
(The accumulator is monotone, so checking the final value against
`2 ^ 64` accepts exactly the strings Rust's per-step checked arithmetic
accepts.) -/
def from_str_radix16 (s : List Char) : Option Nat :=
  let ds := match s with
    | '+' :: r => r
    | _ => s
  match ds with
  | [] => none
  | _ =>
    match hexCore ds 0 with
    | some v => if v < 2 ^ 64 then some v else none
    | none => none

/-- Mirrors `str::split_once(':')`: split at the first colon, if any. -/
def split_once_colon : List Char → Option (List Char × List Char)
  | [] => none
  | c :: cs =>
    if c = ':' then some ([], cs)
    else (split_once_colon cs).map (fun p => (c :: p.1, p.2))

/-- Mirrors `Ast::parse_addr` (src/debugger.rs lines 143-151): a
`segment:offset` pair combines as `segment * 16 + offset` in u64
arithmetic (reduced mod `2 ^ 64`); a bare token is the linear value. -/
def Ast.parse_addr (s : List Char) : Option Nat :=
  match split_once_colon s with
  | some p => do
    let segment ← from_str_radix16 p.1
    let offset ← from_str_radix16 p.2
    pure ((segment * 16 + offset) % 2 ^ 64)
  | none => from_str_radix16 s

/-- Whether a character is whitespace (the ASCII subset of the Unicode
whitespace Rust's `trim`/`split_whitespace` use; command scripts are
ASCII). -/
def isWs (c : Char) : Bool :=
  c = ' ' || c = '\t' || c = '\n' || c = '\r'

/-- Drop leading whitespace. -/
def trimLeft : List Char → List Char
  | [] => []
  | c :: cs => if isWs c then trimLeft cs else c :: cs

/-- Mirrors `str::trim`: drop leading and trailing whitespace. -/
def trim (s : List Char) : List Char :=
  (trimLeft (trimLeft s).reverse).reverse

/-- Mirrors `str::starts_with`. -/
def startsWith (pre s : List Char) : Bool :=
  pre.isPrefixOf s

/-- Worker for `split_whitespace`, accumulating the current word in
reverse. -/
def splitWsAux : List Char → List Char → List (List Char)
  | [], acc => if acc.isEmpty then [] else [acc.reverse]
  | c :: cs, acc =>
    if isWs c then
      if acc.isEmpty then splitWsAux cs []
      else acc.reverse :: splitWsAux cs []
    else splitWsAux cs (c :: acc)

/-- Mirrors `str::split_whitespace`: the maximal nonempty words between
whitespace runs. -/
def split_whitespace (s : List Char) : List (List Char) :=
  splitWsAux s []

/-- Mirrors the `Command` enum in src/debugger.rs (`Print` and `Break`
keep the whole trimmed line, as the source does). -/
inductive Command where
  | quit
  | print (s : List Char)
  | run
  | next
  | cont
  | logon
  | logoff
  | breakCmd (s : List Char)
  | whileBreak (addr : Nat) (commands : List Command)

/-- Mirrors `ParseVal` in src/debugger.rs. -/
inductive ParseVal where
  | comment
  | blockEnd
  | command (c : Command)

/-- The parser's fatal failures.  Each Rust `panic!` in `Ast` becomes one
constructor; only those whose message interpolates `line_num`/`idx + 1`
carry a line number — the unterminated-block panic does not.
`outOfFuel` marks recursion-fuel exhaustion, never reached with
sufficient fuel. -/
inductive ParseErr where
  | unknownCommand (line : Nat)
  | whileTooShort (line : Nat)
  | whileNotBreak (line : Nat)
  | whileBadAddr (line : Nat)
  | whileNoBrace (line : Nat)
  | unterminatedBlock
  | outOfFuel
deriving DecidableEq

/-- The 1-based line number a parse error's message reports, when it
reports one. -/
def ParseErr.lineNumber : ParseErr → Option Nat
  | .unknownCommand n => some n
  | .whileTooShort n => some n
  | .whileNotBreak n => some n
  | .whileBadAddr n => some n
  | .whileNoBrace n => some n
  | .unterminatedBlock => none
  | .outOfFuel => none

mutual

/-- Mirrors `Ast::parse_command` (src/debugger.rs lines 51-91): `none`
means end of input; otherwise a parse value plus the next line index,
computed as `idx + size` exactly as on line 90.  For the single-line
commands `size` is 1; for the `while` branch `size` is the second
component of `parse_while`'s return, which line 140 makes the *absolute*
post-block index — so a terminated block at a nonzero `idx` advances to
`idx + (absolute post-block index)`, skipping lines.  This quirk of the
source is modelled faithfully.  `fuel` bounds the recursion and shrinks
on every call. -/
def parse_command (fuel idx : Nat) (lines : List (List Char))
    (in_block : Bool) : Except ParseErr (Option (ParseVal × Nat)) :=
  match fuel with
  | 0 => .error .outOfFuel
  | fuel + 1 =>
    if lines.length ≤ idx then .ok none
    else
      let line := trim (lines.getD idx [])
      if line.isEmpty || startsWith ['#'] line then
        .ok (some (.comment, idx + 1))
      else if in_block && line == ['\x7d'] then
        .ok (some (.blockEnd, idx + 1))
      else if line == "q".data || line == "quit".data || line == "exit".data then
        .ok (some (.command .quit, idx + 1))
      else if line == "p".data || line == "print".data then
        .ok (some (.command (.print []), idx + 1))
      else if startsWith "p ".data line || startsWith "print ".data line then
        .ok (some (.command (.print line), idx + 1))
      else if line == "r".data || line == "run".data then
        .ok (some (.command .run, idx + 1))
      else if line == "n".data || line == "next".data then
        .ok (some (.command .next, idx + 1))
      else if line == "c".data || line == "continue".data then
        .ok (some (.command .cont, idx + 1))
      else if line == "logon".data then
        .ok (some (.command .logon, idx + 1))
      else if line == "logoff".data then
        .ok (some (.command .logoff, idx + 1))
      else if startsWith "b ".data line || startsWith "break ".data line then
        .ok (some (.command (.breakCmd line), idx + 1))
      else if startsWith "while".data line then do
        let r ← parse_while fuel idx lines
        .ok (some (.command r.1, idx + r.2))
      else
        .error (.unknownCommand (idx + 1))

/-- Mirrors `Ast::parse_while` (src/debugger.rs lines 93-141): validate
`while break <addr> {` on the current line, then consume the block. -/
def parse_while (fuel idx : Nat) (lines : List (List Char)) :
    Except ParseErr (Command × Nat) :=
  match fuel with
  | 0 => .error .outOfFuel
  | fuel + 1 =>
    let line_num := idx + 1
    let line := trim (lines.getD idx [])
    let parts := split_whitespace line
    if parts.length < 4 then .error (.whileTooShort line_num)
    else if parts.getD 1 [] ≠ "break".data then .error (.whileNotBreak line_num)
    else
      match Ast.parse_addr (parts.getD 2 []) with
      | none => .error (.whileBadAddr line_num)
      | some addr =>
        if parts.getD 3 [] ≠ ['\x7b'] then .error (.whileNoBrace line_num)
        else parse_block fuel (idx + 1) lines addr []

/-- Mirrors the command-consuming loop of `Ast::parse_while`: collect
body commands until a `}` line; end of input without one is the
line-number-less unterminated-block panic. -/
def parse_block (fuel idx : Nat) (lines : List (List Char)) (addr : Nat)
    (acc : List Command) : Except ParseErr (Command × Nat) :=
  match fuel with
  | 0 => .error .outOfFuel
  | fuel + 1 =>
    match parse_command fuel idx lines true with
    | .error e => .error e
    | .ok none => .error .unterminatedBlock
    | .ok (some (.blockEnd, n)) => .ok (.whileBreak addr acc, n)
    | .ok (some (.command c, n)) => parse_block fuel n lines addr (acc ++ [c])
    | .ok (some (.comment, n)) => parse_block fuel n lines addr acc

/-- Mirrors the top-level loop of `Ast::new` (src/debugger.rs lines
36-49): collect commands until `parse_command` reports end of input. -/
def parse_all (fuel idx : Nat) (lines : List (List Char))
    (acc : List Command) : Except ParseErr (List Command) :=
  match fuel with
  | 0 => .error .outOfFuel
  | fuel + 1 =>
    match parse_command fuel idx lines false with
    | .error e => .error e
    | .ok none => .ok acc
    | .ok (some (.command c, n)) => parse_all fuel n lines (acc ++ [c])
    | .ok (some (_, n)) => parse_all fuel n lines acc

end

/-- Mirrors `Ast::new` on a script already split into lines
(`file.lines()`). -/
def Ast.new (fuel : Nat) (lines : List (List Char)) :
    Except ParseErr (List Command) :=
  parse_all fuel 0 lines []

/-- Mirrors `Debugger::run_file`: the whole script is parsed by
`Ast::new` before `run_ast` executes anything, so a parse failure means
the list of commands handed to execution is empty. -/
def Debugger.run_file_commands (fuel : Nat) (lines : List (List Char)) :
    List Command :=
  match Ast.new fuel lines with
  | .error _ => []
  | .ok cs => cs

/-- A trimmed script line that `Ast::parse_command` accepts as a single
line without recursing: blank, a comment, or one of the non-block
command forms.  (`}` and `while ...` lines are excluded by construction:
no alternative starts with `}` or `while`.) -/
def simpleLine (l : List Char) : Prop :=
  l = [] ∨ (∃ r, l = '#' :: r) ∨
  l = "q".data ∨ l = "quit".data ∨ l = "exit".data ∨
  l = "p".data ∨ l = "print".data ∨
  (∃ r, l = 'p' :: ' ' :: r) ∨ (∃ r, l = "print ".data ++ r) ∨
  l = "r".data ∨ l = "run".data ∨
  l = "n".data ∨ l = "next".data ∨
  l = "c".data ∨ l = "continue".data ∨
  l = "logon".data ∨ l = "logoff".data ∨
  (∃ r, l = 'b' :: ' ' :: r) ∨ (∃ r, l = "break ".data ++ r)

/-- A script line whose trimmed form is a well-formed
`while break <addr> {` header: a nonempty whitespace-free address token
that `Ast::parse_addr` accepts, in the canonical single-space spelling. -/
def whileHeaderLine (l : List Char) : Prop :=
  ∃ t addr, t ≠ [] ∧ (∀ c ∈ t, isWs c = false) ∧
    Ast.parse_addr t = some addr ∧
    trim l = "while break ".data ++ t ++ " \x7b".data

/-- A script line that cannot close a block or abort parsing with a
different error: a simple (non-block) line, or a further `while break`
header.  In particular no such line is `}`. -/
def blockSafeLine (l : List Char) : Prop :=
  simpleLine (trim l) ∨ whileHeaderLine l

theorem lookup_filter_ne (l : List (Nat × EngineBreak)) (a k : Nat)
    (h : k ≠ a) :
    (l.filter (fun p => p.1 != a)).lookup k = l.lookup k := by
  induction l with
  | nil => rfl
  | cons p t ih =>
    rcases p with ⟨pk, pb⟩
    by_cases hp : pk = a
    · have hb : (k == pk) = false := by simp [hp, h]
      have hf : ((pk, pb).1 != a) = false := by simp [hp]
      simp [List.filter_cons, hf, List.lookup_cons, hb, ih]
    · have hf : ((pk, pb).1 != a) = true := by simp [hp]
      by_cases hkp : k = pk
      · have hb : (k == pk) = true := by simp [hkp]
        simp [List.filter_cons, hf, List.lookup_cons, hb]
      · have hb : (k == pk) = false := by simp [hkp]
        simp [List.filter_cons, hf, List.lookup_cons, hb, ih]

theorem lookup_map_flip (l : List (Nat × EngineBreak)) (a k : Nat) :
    (l.map (fun p =>
        if p.1 = a then (p.1, { p.2 with intr := ! p.2.intr }) else p)).lookup k
      = if k = a then
          (l.lookup k).map (fun b => { b with intr := ! b.intr })
        else l.lookup k := by
  induction l with
  | nil => simp
  | cons p t ih =>
    rcases p with ⟨pk, pb⟩
    simp only [List.map_cons]
    by_cases hp : pk = a
    · by_cases hkp : k = pk
      · have hb : (k == pk) = true := by simp [hkp]
        have hka : k = a := hkp.trans hp
        simp [List.lookup_cons, hp, hb, hka]
      · have hb : (k == pk) = false := by simp [hkp]
        have hka : ¬ k = a := fun hk => hkp (hk.trans hp.symm)
        have hb2 : (k == a) = false := by simp [hka]
        simp [List.lookup_cons, hp, hb, hb2, ih, hka]
    · by_cases hkp : k = pk
      · have hb : (k == pk) = true := by simp [hkp]
        have hka : ¬ k = a := fun hk => hp (hkp.symm.trans hk)
        simp [List.lookup_cons, hp, hb, hka]
      · have hb : (k == pk) = false := by simp [hkp]
        simp [List.lookup_cons, hp, hb, ih]

theorem getBreak_addBreak_self (d : EngineData) (e : EngineBreak) :
    (d.addBreak e).getBreak e.addr = some e := by
  simp [EngineData.addBreak, EngineData.getBreak, List.lookup_cons]

theorem getBreak_addBreak_ne (d : EngineData) (e : EngineBreak) (k : Nat)
    (h : k ≠ e.addr) :
    (d.addBreak e).getBreak k = d.getBreak k := by
  have hb : (k == e.addr) = false := by simp [h]
  simp [EngineData.addBreak, EngineData.getBreak, List.lookup_cons, hb,
    lookup_filter_ne _ _ _ h]

theorem getBreak_flipBreak (d : EngineData) (a k : Nat) :
    (d.flipBreak a).getBreak k
      = if k = a then
          (d.getBreak k).map (fun b => { b with intr := ! b.intr })
        else d.getBreak k := by
  simp [EngineData.flipBreak, EngineData.getBreak, lookup_map_flip]

theorem codeHook_data_exited (d : EngineData) (a : Nat) :
    (codeHook d a).data.exited = d.exited := by
  unfold codeHook
  cases h : d.getBreak a <;> dsimp only <;> split_ifs <;>
    simp [EngineData.flipBreak]

theorem codeHook_getBreak_ne (d : EngineData) (a b : Nat) (h : b ≠ a) :
    (codeHook d a).data.getBreak b = d.getBreak b := by
  have h2 := lookup_map_flip d.breaks a b
  rw [if_neg h] at h2
  unfold codeHook
  cases hg : d.getBreak a <;> dsimp only <;> split_ifs <;>
    simp [EngineData.getBreak, EngineData.flipBreak, h2]

theorem codeHook_break_some (d : EngineData) (a : Nat) (b : EngineBreak)
    (h : d.getBreak a = some b) :
    (codeHook d a).halt = ! b.intr
    ∧ (codeHook d a).data.getBreak a = some { b with intr := ! b.intr } := by
  have h2 : d.breaks.lookup a = some b := h
  unfold codeHook
  rw [h]
  dsimp only
  cases hb : b.intr <;> split_ifs <;>
    first
      | exact ⟨rfl, by
          simp [getBreak_flipBreak, EngineData.getBreak, EngineData.flipBreak,
            lookup_map_flip, h2, hb]⟩
      | simp_all

theorem visitN_intrAt (d : EngineData) (a : Nat)
    (h : d.getBreak a = some (EngineBreak.new a)) :
    ∀ k, (visitN d a k).getBreak a = some ⟨a, decide (k % 2 = 1)⟩ := by
  intro k
  induction k with
  | zero => simpa [visitN, EngineBreak.new] using h
  | succ k ih =>
    have hc := (codeHook_break_some (visitN d a k) a _ ih).2
    rw [visitN, hc]
    rcases Nat.mod_two_eq_zero_or_one k with h2 | h2
    · have h3 : (k + 1) % 2 = 1 := by omega
      simp [h2, h3]
    · have h3 : (k + 1) % 2 = 0 := by omega
      simp [h2, h3]

/-- C1: for a breakpoint registered at address `a`, consecutive
per-instruction hook invocations at `a` request a halt exactly on the
odd-numbered visits (`k` counts visits from 0, so visit `k + 1` halts iff
`k` is even, i.e. iff the 1-based visit number is odd), and every visit
flips the breakpoint's sense bit. -/
theorem sense_bit_alternation (d : EngineData) (a k : Nat) :
    haltOnVisit (Engine.add_break d a) a k = decide (k % 2 = 0)
    ∧ intrAt (visitN (Engine.add_break d a) a (k + 1)) a
        = (intrAt (visitN (Engine.add_break d a) a k) a).map (fun s => ! s) := by
  have h0 : (Engine.add_break d a).getBreak a = some (EngineBreak.new a) :=
    getBreak_addBreak_self d (EngineBreak.new a)
  have hk := visitN_intrAt _ _ h0 k
  have hk1 := visitN_intrAt _ _ h0 (k + 1)
  constructor
  · have hc := (codeHook_break_some _ a _ hk).1
    rw [haltOnVisit, hc]
    rcases Nat.mod_two_eq_zero_or_one k with h2 | h2 <;> simp [h2]
  · rw [intrAt, intrAt, hk, hk1]
    rcases Nat.mod_two_eq_zero_or_one k with h2 | h2
    · have h3 : (k + 1) % 2 = 1 := by omega
      simp [h2, h3]
    · have h3 : (k + 1) % 2 = 0 := by omega
      simp [h2, h3]

/-- C9: two code-hook invocations on states identical except for the
verbose flag produce the same halt decision and the same breakpoint and
loop-session state; the verbose flag only controls the log, which is
emitted before the halt decision. -/
theorem verbose_noninterference (d : EngineData) (a : Nat) (v1 v2 : Bool) :
    (codeHook { d with verbose := v1 } a).halt
      = (codeHook { d with verbose := v2 } a).halt
    ∧ (codeHook { d with verbose := v1 } a).data.breaks
      = (codeHook { d with verbose := v2 } a).data.breaks
    ∧ (codeHook { d with verbose := v1 } a).data.whileBreak
      = (codeHook { d with verbose := v2 } a).data.whileBreak
    ∧ (codeHook { d with verbose := v1 } a).log = (if v1 then [a] else []) := by
  unfold codeHook
  have hg : ∀ v : Bool,
      ({ d with verbose := v } : EngineData).getBreak a = d.getBreak a :=
    fun _ => rfl
  rw [hg v1, hg v2]
  cases d.getBreak a <;> dsimp only <;> split_ifs <;>
    simp_all [EngineData.flipBreak]

/-- C10: registering a breakpoint at an address that may already carry
one — via `Engine::add_break` or `Engine::add_while_break` — replaces the
entry by a fresh one with a clear sense bit, so the next hook invocation
at that address halts regardless of the previous entry's state. -/
theorem break_replacement_rearms (d : EngineData) (a : Nat) :
    (Engine.add_break d a).getBreak a = some (EngineBreak.new a)
    ∧ (codeHook (Engine.add_break d a) a).halt = true
    ∧ (Engine.add_while_break d a).getBreak a = some (EngineBreak.new a)
    ∧ (codeHook (Engine.add_while_break d a) a).halt = true := by
  have h1 : (Engine.add_break d a).getBreak a = some (EngineBreak.new a) :=
    getBreak_addBreak_self d (EngineBreak.new a)
  have h2 : (Engine.add_while_break d a).getBreak a
      = some (EngineBreak.new a) :=
    getBreak_addBreak_self d (EngineBreak.new a)
  refine ⟨h1, ?_, h2, ?_⟩
  · have := (codeHook_break_some _ a _ h1).1
    simpa [EngineBreak.new] using this
  · have := (codeHook_break_some _ a _ h2).1
    simpa [EngineBreak.new] using this

/-- C2: starting a loop-until-breakpoint session at `a`
(`Engine::add_while_break`), the hook invocation at `a` halts and marks
the session armed-for-completion; from any state whose session is armed
for `a`, the next hook invocation at a non-breakpointed address `b ≠ a`
halts the run and clears the session — in particular this holds for the
state reached right after the halt at `a`, so no stale session remains. -/
theorem loop_session_lifecycle (d e : EngineData) (a b : Nat)
    (hba : b ≠ a) (hdb : d.getBreak b = none)
    (he1 : e.whileBreak = some (true, a)) (he2 : e.getBreak b = none) :
    (codeHook (Engine.add_while_break d a) a).halt = true
    ∧ (codeHook (Engine.add_while_break d a) a).data.whileBreak
        = some (true, a)
    ∧ (codeHook e b).halt = true
    ∧ (codeHook e b).data.whileBreak = none
    ∧ (codeHook (codeHook (Engine.add_while_break d a) a).data b).halt = true
    ∧ (codeHook (codeHook (Engine.add_while_break d a) a).data b).data.whileBreak
        = none := by
  have key : ∀ s : EngineData, s.whileBreak = some (true, a) →
      s.getBreak b = none →
      (codeHook s b).halt = true ∧ (codeHook s b).data.whileBreak = none := by
    intro s hs1 hs2
    unfold codeHook
    rw [hs2]
    dsimp only
    rw [hs1]
    simp [whileStarted]
  have h1 : (Engine.add_while_break d a).getBreak a
      = some (EngineBreak.new a) :=
    getBreak_addBreak_self d (EngineBreak.new a)
  have harm : (codeHook (Engine.add_while_break d a) a).halt = true
      ∧ (codeHook (Engine.add_while_break d a) a).data.whileBreak
        = some (true, a) := by
    unfold codeHook
    rw [h1]
    dsimp only
    have hw : (Engine.add_while_break d a).whileBreak = some (false, a) := rfl
    rw [hw]
    simp [whileTargetIs, EngineBreak.new, EngineData.flipBreak]
  have hDb : (codeHook (Engine.add_while_break d a) a).data.getBreak b
      = none := by
    rw [codeHook_getBreak_ne _ _ _ hba]
    have : (Engine.add_while_break d a).getBreak b = d.getBreak b :=
      getBreak_addBreak_ne d (EngineBreak.new a) b hba
    rw [this, hdb]
  have hchain := key _ harm.2 hDb
  exact ⟨harm.1, harm.2, (key e he1 he2).1, (key e he1 he2).2,
    hchain.1, hchain.2⟩

/-- Witness for `loop_session_lifecycle` at the concrete session with a
loop target 0x100, completing at the non-breakpointed address 0x200. -/
theorem loop_session_lifecycle_witness :
    (codeHook (Engine.add_while_break EngineData.new 0x100) 0x100).halt = true
    ∧ (codeHook (Engine.add_while_break EngineData.new 0x100)
        0x100).data.whileBreak = some (true, 0x100)
    ∧ (codeHook { EngineData.new with whileBreak := some (true, 0x100) }
        0x200).halt = true
    ∧ (codeHook { EngineData.new with whileBreak := some (true, 0x100) }
        0x200).data.whileBreak = none
    ∧ (codeHook (codeHook (Engine.add_while_break EngineData.new 0x100)
        0x100).data 0x200).halt = true
    ∧ (codeHook (codeHook (Engine.add_while_break EngineData.new 0x100)
        0x100).data 0x200).data.whileBreak = none :=
  loop_session_lifecycle EngineData.new
    { EngineData.new with whileBreak := some (true, 0x100) } 0x100 0x200
    (by decide) (by decide) rfl (by decide)

/-- C3: once the exited flag is set, no engine operation (code hook,
interrupt hook, breakpoint registration, loop-session registration,
verbose toggle) clears it, and every execution command issued afterwards
(`run`, `next`, `continue`) ends the session instead of entering the
engine. -/
theorem exited_is_permanent (d : EngineData) (op : EngineOp)
    (h : d.exited = true) :
    (applyOp d op).exited = true
    ∧ Debugger.runStep d.exited = .endSession
    ∧ Debugger.contStep d.exited = .endSession
    ∧ Debugger.nextStep d.exited = .endSession := by
  refine ⟨?_, by simp [Debugger.runStep, h], by simp [Debugger.contStep, h],
    by simp [Debugger.nextStep, h]⟩
  cases op with
  | code addr => rw [applyOp, codeHook_data_exited]; exact h
  | intr num ax =>
    rw [applyOp]
    unfold intrHook
    dsimp only
    split_ifs <;> simp [h]
  | addBreak addr =>
    simpa [applyOp, Engine.add_break, EngineData.addBreak] using h
  | addWhileBreak addr =>
    simpa [applyOp, Engine.add_while_break, EngineData.addBreak] using h
  | setVerbose v =>
    simpa [applyOp, Engine.set_verbose] using h

/-- Witness for `exited_is_permanent` at a concrete exited state and a
concrete code-hook operation. -/
theorem exited_is_permanent_witness :
    (applyOp { EngineData.new with exited := true } (.code 5)).exited = true
    ∧ Debugger.runStep ({ EngineData.new with exited := true } :
        EngineData).exited = .endSession
    ∧ Debugger.contStep ({ EngineData.new with exited := true } :
        EngineData).exited = .endSession
    ∧ Debugger.nextStep ({ EngineData.new with exited := true } :
        EngineData).exited = .endSession :=
  exited_is_permanent { EngineData.new with exited := true } (.code 5) rfl

/-- C4, counterexample: interrupt 0x21 with `ax = 0x4a03` is an
unrecognized request under the handled selector `ah = 0x4a`, yet the shim
neither sets the exited flag nor requests a halt nor reports the number —
it hits a Rust `panic!` instead, refuting the claim that every
unrecognized selector takes the set-exited/halt/report path. -/
theorem interrupt_shim_claim_counterexample :
    intrHook EngineData.new 0x21 0x4a03
      = { data := EngineData.new, halt := false, panicked := true,
          reported := none }
    ∧ (intrHook EngineData.new 0x21 0x4a03).data.exited = false := by
  constructor <;> rfl

/-- C4, amended: an interrupt number other than 0x21, or an unrecognized
`ah` selector under 0x21, sets the exited flag, requests a halt and
reports the unhandled number; an unrecognized `ax` request under the
handled selector `ah = 0x4a` is fatal by `panic!` (aborting the process)
without setting the exited flag or requesting a halt.  In no case is an
unrecognized service silently approximated. -/
theorem interrupt_shim_fail_loud (d : EngineData) (num ax : Nat) :
    (num ≠ 0x21 →
      intrHook d num ax
        = { data := { d with exited := true }, halt := true,
            panicked := false, reported := some num })
    ∧ (num = 0x21 →
        ax >>> 8 ∉ ([0x25, 0x30, 0x35, 0x40, 0x4a, 0x4c] : List Nat) →
        intrHook d num ax
          = { data := { d with exited := true }, halt := true,
              panicked := false, reported := some (ax >>> 8) })
    ∧ (num = 0x21 → ax >>> 8 = 0x4a → ax ≠ 0x4a01 → ax ≠ 0x4a02 →
        intrHook d num ax
          = { data := d, halt := false, panicked := true,
              reported := none }) := by
  refine ⟨?_, ?_, ?_⟩
  · intro hnum
    unfold intrHook
    rw [if_neg hnum]
  · intro hnum hsel
    subst hnum
    simp only [List.mem_cons, List.not_mem_nil, or_false, not_or] at hsel
    obtain ⟨n1, n2, n3, n4, n5, n6⟩ := hsel
    unfold intrHook
    dsimp only
    rw [if_pos rfl, if_neg n1, if_neg n2, if_neg n3, if_neg n4, if_neg n5,
      if_neg n6]
  · intro hnum hsel hx1 hx2
    subst hnum
    unfold intrHook
    dsimp only
    rw [if_pos rfl, if_neg (by rw [hsel]; decide),
      if_neg (by rw [hsel]; decide), if_neg (by rw [hsel]; decide),
      if_neg (by rw [hsel]; decide), if_pos hsel,
      if_neg (by simp [hx1, hx2])]

/-- Witness for `interrupt_shim_fail_loud`: the three fatal paths at
concrete inputs — interrupt 0x13, selector `ah = 0x99` under 0x21, and
the panicking `ax = 0x4a05` under `ah = 0x4a`. -/
theorem interrupt_shim_fail_loud_witness :
    intrHook EngineData.new 0x13 0
      = { data := { EngineData.new with exited := true }, halt := true,
          panicked := false, reported := some 0x13 }
    ∧ intrHook EngineData.new 0x21 0x9900
      = { data := { EngineData.new with exited := true }, halt := true,
          panicked := false, reported := some 0x99 }
    ∧ intrHook EngineData.new 0x21 0x4a05
      = { data := EngineData.new, halt := false, panicked := true,
          reported := none } :=
  ⟨(interrupt_shim_fail_loud EngineData.new 0x13 0).1 (by decide),
   by
     have h := (interrupt_shim_fail_loud EngineData.new 0x21 0x9900).2.1 rfl
       (by decide)
     simpa using h,
   (interrupt_shim_fail_loud EngineData.new 0x21 0x4a05).2.2 rfl (by decide)
     (by decide) (by decide)⟩

theorem readU16LE_of_le (bytes : List Nat) (off : Nat)
    (h : off + 2 ≤ bytes.length) :
    readU16LE bytes off = some (le16At bytes off) := by
  simp [readU16LE, le16At, h]

theorem Header_new_eq (bytes : List Nat) (h : 28 ≤ bytes.length) :
    Header.new bytes = some
      { last_page_bytes := le16At bytes 2, pages_in_file := le16At bytes 4,
        relocations := le16At bytes 6, header_size := le16At bytes 8,
        min_allocation := le16At bytes 10, max_allocation := le16At bytes 12,
        initial_ss := le16At bytes 14, initial_sp := le16At bytes 16,
        checksum := le16At bytes 18, initial_ip := le16At bytes 20,
        initial_cs := le16At bytes 22, relocation_table := le16At bytes 24,
        overlay := le16At bytes 26 } := by
  have r2 := readU16LE_of_le bytes 2 (by omega)
  have r4 := readU16LE_of_le bytes 4 (by omega)
  have r6 := readU16LE_of_le bytes 6 (by omega)
  have r8 := readU16LE_of_le bytes 8 (by omega)
  have r10 := readU16LE_of_le bytes 10 (by omega)
  have r12 := readU16LE_of_le bytes 12 (by omega)
  have r14 := readU16LE_of_le bytes 14 (by omega)
  have r16 := readU16LE_of_le bytes 16 (by omega)
  have r18 := readU16LE_of_le bytes 18 (by omega)
  have r20 := readU16LE_of_le bytes 20 (by omega)
  have r22 := readU16LE_of_le bytes 22 (by omega)
  have r24 := readU16LE_of_le bytes 24 (by omega)
  have r26 := readU16LE_of_le bytes 26 (by omega)
  simp [Header.new, r2, r4, r6, r8, r10, r12, r14, r16, r18, r20, r22, r24,
    r26]

theorem Header_new_none (bytes : List Nat) (h : bytes.length < 28) :
    Header.new bytes = none := by
  have h26 : readU16LE bytes 26 = none := by
    simp [readU16LE]
    omega
  unfold Header.new
  cases h2 : readU16LE bytes 2
  · rfl
  dsimp only [Option.bind_eq_bind, Option.none_bind, Option.some_bind]
  cases h4 : readU16LE bytes 4
  · rfl
  dsimp only [Option.bind_eq_bind, Option.none_bind, Option.some_bind]
  cases h6 : readU16LE bytes 6
  · rfl
  dsimp only [Option.bind_eq_bind, Option.none_bind, Option.some_bind]
  cases h8 : readU16LE bytes 8
  · rfl
  dsimp only [Option.bind_eq_bind, Option.none_bind, Option.some_bind]
  cases h10 : readU16LE bytes 10
  · rfl
  dsimp only [Option.bind_eq_bind, Option.none_bind, Option.some_bind]
  cases h12 : readU16LE bytes 12
  · rfl
  dsimp only [Option.bind_eq_bind, Option.none_bind, Option.some_bind]
  cases h14 : readU16LE bytes 14
  · rfl
  dsimp only [Option.bind_eq_bind, Option.none_bind, Option.some_bind]
  cases h16 : readU16LE bytes 16
  · rfl
  dsimp only [Option.bind_eq_bind, Option.none_bind, Option.some_bind]
  cases h18 : readU16LE bytes 18
  · rfl
  dsimp only [Option.bind_eq_bind, Option.none_bind, Option.some_bind]
  cases h20 : readU16LE bytes 20
  · rfl
  dsimp only [Option.bind_eq_bind, Option.none_bind, Option.some_bind]
  cases h22 : readU16LE bytes 22
  · rfl
  dsimp only [Option.bind_eq_bind, Option.none_bind, Option.some_bind]
  cases h24 : readU16LE bytes 24
  · rfl
  dsimp only [Option.bind_eq_bind, Option.none_bind, Option.some_bind]
  rw [h26]
  rfl

theorem Header_new_indep (m0 m1 m0' m1' : Nat) (rest : List Nat) :
    Header.new (m0 :: m1 :: rest) = Header.new (m0' :: m1' :: rest) := by
  by_cases h : 26 ≤ rest.length
  · rw [Header_new_eq _ (by simp; omega), Header_new_eq _ (by simp; omega)]
    rfl
  · rw [Header_new_none _ (by simp; omega), Header_new_none _ (by simp; omega)]
/-- C5: for every buffer at least as long as the 28-byte header region,
each parsed header field equals the little-endian 16-bit integer at its
documented byte offset (2, 4, ..., 26), and the two magic bytes at
offsets 0 and 1 never influence the parse. -/
theorem header_fields_little_endian :
    (∀ bytes : List Nat, 28 ≤ bytes.length →
      Header.new bytes = some
        { last_page_bytes := le16At bytes 2, pages_in_file := le16At bytes 4,
          relocations := le16At bytes 6, header_size := le16At bytes 8,
          min_allocation := le16At bytes 10, max_allocation := le16At bytes 12,
          initial_ss := le16At bytes 14, initial_sp := le16At bytes 16,
          checksum := le16At bytes 18, initial_ip := le16At bytes 20,
          initial_cs := le16At bytes 22, relocation_table := le16At bytes 24,
          overlay := le16At bytes 26 })
    ∧ ∀ (m0 m1 m0' m1' : Nat) (rest : List Nat),
        Header.new (m0 :: m1 :: rest) = Header.new (m0' :: m1' :: rest) :=
  ⟨Header_new_eq, Header_new_indep⟩

/-- Witness for `header_fields_little_endian` on the 29-byte buffer from
the repository's own `parse_header` unit test, plus a magic-byte change
on the same buffer. -/
theorem header_fields_little_endian_witness :
    Header.new [0x4D, 0x5A, 0x56, 0x00, 0x84, 0x00, 0x00, 0x00, 0x20, 0x00,
        0xF9, 0x02, 0xFF, 0xFF, 0x82, 0x10, 0x80, 0x00, 0x00, 0x00, 0x10,
        0x00, 0x2B, 0x10, 0x1E, 0x00, 0x00, 0x00, 0x01]
      = some { last_page_bytes := 0x56, pages_in_file := 0x84,
               relocations := 0, header_size := 0x20, min_allocation := 0x2F9,
               max_allocation := 0xFFFF, initial_ss := 0x1082,
               initial_sp := 0x80, checksum := 0, initial_ip := 0x10,
               initial_cs := 0x102B, relocation_table := 0x1E, overlay := 0 }
    ∧ Header.new (0x4D :: 0x5A :: [0x56, 0x00, 0x84, 0x00, 0x00, 0x00, 0x20,
        0x00, 0xF9, 0x02, 0xFF, 0xFF, 0x82, 0x10, 0x80, 0x00, 0x00, 0x00,
        0x10, 0x00, 0x2B, 0x10, 0x1E, 0x00, 0x00, 0x00, 0x01])
      = Header.new (0 :: 0 :: [0x56, 0x00, 0x84, 0x00, 0x00, 0x00, 0x20,
        0x00, 0xF9, 0x02, 0xFF, 0xFF, 0x82, 0x10, 0x80, 0x00, 0x00, 0x00,
        0x10, 0x00, 0x2B, 0x10, 0x1E, 0x00, 0x00, 0x00, 0x01]) := by
  constructor
  · have h := header_fields_little_endian.1
      [0x4D, 0x5A, 0x56, 0x00, 0x84, 0x00, 0x00, 0x00, 0x20, 0x00,
        0xF9, 0x02, 0xFF, 0xFF, 0x82, 0x10, 0x80, 0x00, 0x00, 0x00, 0x10,
        0x00, 0x2B, 0x10, 0x1E, 0x00, 0x00, 0x00, 0x01] (by decide)
    rw [h]
    rfl
  · exact header_fields_little_endian.2 0x4D 0x5A 0 0
      [0x56, 0x00, 0x84, 0x00, 0x00, 0x00, 0x20, 0x00, 0xF9, 0x02, 0xFF,
        0xFF, 0x82, 0x10, 0x80, 0x00, 0x00, 0x00, 0x10, 0x00, 0x2B, 0x10,
        0x1E, 0x00, 0x00, 0x00, 0x01]

/-- C8: a buffer shorter than the 28-byte header region makes header
parsing — and hence program loading — fail rather than succeed (the
truncated-header failure the specification calls MalformedHeader). -/
theorem short_buffer_fails (bytes : List Nat) (start : Nat)
    (h : bytes.length < 28) :
    Header.new bytes = none ∧ Program.new bytes start = none := by
  have hn := Header_new_none bytes h
  refine ⟨hn, ?_⟩
  unfold Program.new
  rw [hn]

/-- Witness for `short_buffer_fails` on a 3-byte truncated input. -/
theorem short_buffer_fails_witness :
    Header.new [0x4D, 0x5A, 0x56] = none
    ∧ Program.new [0x4D, 0x5A, 0x56] 0x100 = none :=
  short_buffer_fails [0x4D, 0x5A, 0x56] 0x100 (by decide)

theorem split_once_colon_of_not_mem (s : List Char) (h : ':' ∉ s) :
    split_once_colon s = none := by
  induction s with
  | nil => rfl
  | cons c cs ih =>
    simp only [List.mem_cons, not_or] at h
    simp [split_once_colon, Ne.symm h.1, ih h.2]

theorem split_once_colon_append (s1 s2 : List Char) (h : ':' ∉ s1) :
    split_once_colon (s1 ++ ':' :: s2) = some (s1, s2) := by
  induction s1 with
  | nil => simp [split_once_colon]
  | cons c cs ih =>
    simp only [List.mem_cons, not_or] at h
    simp [split_once_colon, Ne.symm h.1, ih h.2]

/-- C6: a bare hexadecimal token accepted by `u64::from_str_radix`
parses to its linear value, and a `segment:offset` pair of hexadecimal
tokens parses to `segment * 16 + offset` (whenever that value fits in
u64, which holds for all 16-bit segment/offset pairs). -/
theorem parse_addr_spec :
    (∀ (s : List Char) (v : Nat), ':' ∉ s → from_str_radix16 s = some v →
      Ast.parse_addr s = some v)
    ∧ ∀ (s1 s2 : List Char) (seg off : Nat), ':' ∉ s1 →
        from_str_radix16 s1 = some seg → from_str_radix16 s2 = some off →
        seg * 16 + off < 2 ^ 64 →
        Ast.parse_addr (s1 ++ ':' :: s2) = some (seg * 16 + off) := by
  constructor
  · intro s v hs hv
    unfold Ast.parse_addr
    rw [split_once_colon_of_not_mem s hs]
    exact hv
  · intro s1 s2 seg off h1 hseg hoff hlt
    unfold Ast.parse_addr
    rw [split_once_colon_append s1 s2 h1]
    dsimp only
    rw [hseg]
    dsimp only [Option.bind_eq_bind, Option.some_bind]
    rw [hoff]
    dsimp only [Option.bind_eq_bind, Option.some_bind]
    rw [Nat.mod_eq_of_lt hlt]
    rfl

/-- Witness for `parse_addr_spec`: the spec's own examples, `"10"` to
0x10 and `"10:20"` to 0x120. -/
theorem parse_addr_spec_witness :
    Ast.parse_addr "10".data = some 0x10
    ∧ Ast.parse_addr "10:20".data = some 0x120 := by
  constructor
  · exact parse_addr_spec.1 "10".data 0x10 (by decide) (by decide)
  · exact parse_addr_spec.2 "10".data "20".data 0x10 0x20 (by decide)
      (by decide) (by decide) (by decide)

theorem trimLeft_cons_of_not_ws (c : Char) (l : List Char)
    (h : isWs c = false) : trimLeft (c :: l) = c :: l := by
  simp [trimLeft, h]

theorem trim_while_header (t : List Char) :
    trim (['w', 'h', 'i', 'l', 'e', ' ', 'b', 'r', 'e', 'a', 'k', ' ']
        ++ t ++ [' ', '\x7b'])
      = ['w', 'h', 'i', 'l', 'e', ' ', 'b', 'r', 'e', 'a', 'k', ' ']
        ++ t ++ [' ', '\x7b'] := by
  unfold trim
  have h1 : trimLeft (['w', 'h', 'i', 'l', 'e', ' ', 'b', 'r', 'e', 'a', 'k',
        ' '] ++ t ++ [' ', '\x7b'])
      = ['w', 'h', 'i', 'l', 'e', ' ', 'b', 'r', 'e', 'a', 'k', ' ']
        ++ t ++ [' ', '\x7b'] := rfl
  have h2 : ((['w', 'h', 'i', 'l', 'e', ' ', 'b', 'r', 'e', 'a', 'k', ' ']
        ++ t ++ [' ', '\x7b']).reverse)
      = '\x7b' :: ' ' :: (t.reverse
          ++ [' ', 'k', 'a', 'e', 'r', 'b', ' ', 'e', 'l', 'i', 'h', 'w']) := by
    simp [List.reverse_append]
  have h3 : trimLeft ('\x7b' :: ' ' :: (t.reverse
        ++ [' ', 'k', 'a', 'e', 'r', 'b', ' ', 'e', 'l', 'i', 'h', 'w']))
      = '\x7b' :: ' ' :: (t.reverse
          ++ [' ', 'k', 'a', 'e', 'r', 'b', ' ', 'e', 'l', 'i', 'h', 'w']) :=
    rfl
  rw [h1, h2, h3, ← h2, List.reverse_reverse]

theorem splitWsAux_token (t : List Char) :
    ∀ (acc r : List Char), (∀ c ∈ t, isWs c = false) →
      (acc ≠ [] ∨ t ≠ []) →
      splitWsAux (t ++ ' ' :: r) acc
        = (acc.reverse ++ t) :: splitWsAux r [] := by
  induction t with
  | nil =>
    intro acc r _ hne
    have hacc : acc ≠ [] := by tauto
    have hae : acc.isEmpty = false := by
      cases acc with
      | nil => exact absurd rfl hacc
      | cons x xs => rfl
    simp [splitWsAux, isWs, hae]
  | cons c cs ih =>
    intro acc r hws hne
    have hc : isWs c = false := hws c (by simp)
    have hcs : ∀ x ∈ cs, isWs x = false := fun x hx => hws x (by simp [hx])
    have key := ih (c :: acc) r hcs (Or.inl (by simp))
    have hstep : splitWsAux ((c :: cs) ++ ' ' :: r) acc
        = splitWsAux (cs ++ ' ' :: r) (c :: acc) := by
      simp [splitWsAux, hc]
    rw [hstep, key]
    simp

theorem split_whitespace_header (t : List Char) (ht0 : t ≠ [])
    (htw : ∀ c ∈ t, isWs c = false) :
    split_whitespace (['w', 'h', 'i', 'l', 'e', ' ', 'b', 'r', 'e', 'a', 'k',
        ' '] ++ t ++ [' ', '\x7b'])
      = [['w', 'h', 'i', 'l', 'e'], ['b', 'r', 'e', 'a', 'k'], t, ['\x7b']] := by
  unfold split_whitespace
  have hpre : splitWsAux (['w', 'h', 'i', 'l', 'e', ' ', 'b', 'r', 'e', 'a',
        'k', ' '] ++ t ++ [' ', '\x7b']) []
      = ['w', 'h', 'i', 'l', 'e'] :: ['b', 'r', 'e', 'a', 'k']
          :: splitWsAux (t ++ ' ' :: ['\x7b']) [] :=
    rfl
  rw [hpre, splitWsAux_token t [] ['\x7b'] htw (Or.inr ht0)]
  simp [splitWsAux, isWs]

theorem parse_command_simple (f idx : Nat) (lines : List (List Char))
    (b : Bool) (hidx : idx < lines.length)
    (hs : simpleLine (trim (lines.getD idx []))) :
    parse_command (f + 1) idx lines b
      = .ok (some (ParseVal.comment, idx + 1))
    ∨ ∃ c, parse_command (f + 1) idx lines b
        = .ok (some (ParseVal.command c, idx + 1)) := by
  unfold simpleLine at hs
  cases b <;>
    (simp only [parse_command]
     rw [if_neg (not_le.mpr hidx)]
     rcases hs with h|⟨r,h⟩|h|h|h|h|h|⟨r,h⟩|⟨r,h⟩|h|h|h|h|h|h|h|h|⟨r,h⟩|⟨r,h⟩ <;>
       rw [h] <;>
       first
         | exact Or.inl rfl
         | exact Or.inr ⟨Command.quit, rfl⟩
         | exact Or.inr ⟨Command.print [], rfl⟩
         | exact Or.inr ⟨Command.run, rfl⟩
         | exact Or.inr ⟨Command.next, rfl⟩
         | exact Or.inr ⟨Command.cont, rfl⟩
         | exact Or.inr ⟨Command.logon, rfl⟩
         | exact Or.inr ⟨Command.logoff, rfl⟩
         | (rw [show (('#' :: r).isEmpty || startsWith ['#'] ('#' :: r))
               = true from by cases r <;> rfl]
            exact Or.inl rfl)
         | (rw [show (startsWith ['p', ' '] ('p' :: ' ' :: r)
                 || startsWith "print ".data ('p' :: ' ' :: r)) = true from by
               cases r <;> rfl]
            exact Or.inr ⟨Command.print ('p' :: ' ' :: r), rfl⟩)
         | (rw [show (startsWith ['p', ' '] ("print ".data ++ r)
                 || startsWith "print ".data ("print ".data ++ r))
                 = true from by cases r <;> rfl]
            exact Or.inr ⟨Command.print ("print ".data ++ r), rfl⟩)
         | (rw [show (startsWith ['b', ' '] ('b' :: ' ' :: r)
                 || startsWith "break ".data ('b' :: ' ' :: r)) = true from by
               cases r <;> rfl]
            exact Or.inr ⟨Command.breakCmd ('b' :: ' ' :: r), rfl⟩)
         | (rw [show (startsWith ['b', ' '] ("break ".data ++ r)
                 || startsWith "break ".data ("break ".data ++ r))
                 = true from by cases r <;> rfl]
            exact Or.inr ⟨Command.breakCmd ("break ".data ++ r), rfl⟩))

theorem parse_while_header (t : List Char) (addr : Nat)
    (lines : List (List Char)) (idx m : Nat)
    (ht0 : t ≠ []) (htw : ∀ c ∈ t, isWs c = false)
    (ha : Ast.parse_addr t = some addr)
    (htrim : trim (lines.getD idx [])
      = "while break ".data ++ t ++ " \x7b".data) :
    parse_while (m + 1) idx lines = parse_block m (idx + 1) lines addr [] := by
  simp only [parse_while]
  simp only [htrim, split_whitespace_header t ht0 htw]
  simp only [List.getD_cons_succ, List.getD_cons_zero]
  rw [if_neg (by simp), if_neg (by simp)]
  simp only [ha]
  rw [if_neg (by simp)]

theorem parse_command_header_err (t : List Char) (lines : List (List Char))
    (idx n : Nat) (b : Bool) (hidx : idx < lines.length)
    (htrim : trim (lines.getD idx [])
      = "while break ".data ++ t ++ " \x7b".data)
    (hpw : parse_while n idx lines = .error .unterminatedBlock) :
    parse_command (n + 1) idx lines b = .error .unterminatedBlock := by
  cases b <;>
    (simp only [parse_command]
     rw [if_neg (not_le.mpr hidx)]
     simp only [htrim, hpw]
     rfl)

theorem parse_block_unterminated (lines : List (List Char)) :
    ∀ (fuel idx addr : Nat) (acc : List Command),
      (∀ j, idx ≤ j → j < lines.length → blockSafeLine (lines.getD j [])) →
      3 * (lines.length - idx) + 2 ≤ fuel →
      parse_block fuel idx lines addr acc = .error .unterminatedBlock := by
  intro fuel
  induction fuel using Nat.strong_induction_on with
  | _ fuel ih =>
    intro idx addr acc hs hf
    by_cases hidx : idx < lines.length
    · rcases hs idx le_rfl hidx with hsimp | hhead
      · obtain ⟨g, rfl⟩ : ∃ g, fuel = g + 2 := ⟨fuel - 2, by omega⟩
        rw [parse_block.eq_def]
        dsimp only
        rcases parse_command_simple g idx lines true hidx hsimp
          with hc | ⟨c, hc⟩
        · rw [hc]
          exact ih (g + 1) (by omega) (idx + 1) addr acc
            (fun j h1 h2 => hs j (by omega) h2) (by omega)
        · rw [hc]
          exact ih (g + 1) (by omega) (idx + 1) addr (acc ++ [c])
            (fun j h1 h2 => hs j (by omega) h2) (by omega)
      · obtain ⟨t, a, ht0, htw, ha, htrim⟩ := hhead
        obtain ⟨e, rfl⟩ : ∃ e, fuel = e + 3 := ⟨fuel - 3, by omega⟩
        have hinner : parse_block e (idx + 1) lines a []
            = .error .unterminatedBlock :=
          ih e (by omega) (idx + 1) a []
            (fun j h1 h2 => hs j (by omega) h2) (by omega)
        have hpw : parse_while (e + 1) idx lines
            = .error .unterminatedBlock :=
          (parse_while_header t a lines idx e ht0 htw ha htrim).trans hinner
        have hpc : parse_command (e + 2) idx lines true
            = .error .unterminatedBlock :=
          parse_command_header_err t lines idx (e + 1) true hidx htrim hpw
        rw [parse_block.eq_def]
        dsimp only
        rw [hpc]
    · obtain ⟨g, rfl⟩ : ∃ g, fuel = g + 2 := ⟨fuel - 2, by omega⟩
      have hend : parse_command (g + 1) idx lines true = .ok none := by
        simp only [parse_command]
        rw [if_pos (by omega)]
      rw [parse_block.eq_def]
      dsimp only
      rw [hend]

theorem parse_all_unterminated (lines : List (List Char)) :
    ∀ (fuel idx : Nat) (acc : List Command),
      (∀ j, idx ≤ j → j < lines.length → blockSafeLine (lines.getD j [])) →
      (∃ j, idx ≤ j ∧ j < lines.length
        ∧ whileHeaderLine (lines.getD j [])) →
      3 * (lines.length - idx) + 2 ≤ fuel →
      parse_all fuel idx lines acc = .error .unterminatedBlock := by
  intro fuel
  induction fuel using Nat.strong_induction_on with
  | _ fuel ih =>
    intro idx acc hs hex hf
    obtain ⟨j, hj1, hj2, hjh⟩ := hex
    have hidx : idx < lines.length := by omega
    by_cases hhead : whileHeaderLine (lines.getD idx [])
    · obtain ⟨t, a, ht0, htw, ha, htrim⟩ := hhead
      obtain ⟨e, rfl⟩ : ∃ e, fuel = e + 3 := ⟨fuel - 3, by omega⟩
      have hinner : parse_block e (idx + 1) lines a []
          = .error .unterminatedBlock :=
        parse_block_unterminated lines e (idx + 1) a []
          (fun j2 h1 h2 => hs j2 (by omega) h2) (by omega)
      have hpw : parse_while (e + 1) idx lines
          = .error .unterminatedBlock :=
        (parse_while_header t a lines idx e ht0 htw ha htrim).trans hinner
      have hpc : parse_command (e + 2) idx lines false
          = .error .unterminatedBlock :=
        parse_command_header_err t lines idx (e + 1) false hidx htrim hpw
      rw [parse_all.eq_def]
      dsimp only
      rw [hpc]
    · have hsimp : simpleLine (trim (lines.getD idx [])) := by
        rcases hs idx le_rfl hidx with h | h
        · exact h
        · exact absurd h hhead
      have hjgt : idx + 1 ≤ j := by
        rcases Nat.eq_or_lt_of_le hj1 with h | h
        · rw [← h] at hjh
          exact absurd hjh hhead
        · omega
      obtain ⟨g, rfl⟩ : ∃ g, fuel = g + 2 := ⟨fuel - 2, by omega⟩
      rw [parse_all.eq_def]
      dsimp only
      rcases parse_command_simple g idx lines false hidx hsimp
        with hc | ⟨c, hc⟩
      · rw [hc]
        exact ih (g + 1) (by omega) (idx + 1) acc
          (fun j2 h1 h2 => hs j2 (by omega) h2)
          ⟨j, by omega, hj2, hjh⟩ (by omega)
      · rw [hc]
        exact ih (g + 1) (by omega) (idx + 1) (acc ++ [c])
          (fun j2 h1 h2 => hs j2 (by omega) h2)
          ⟨j, by omega, hj2, hjh⟩ (by omega)

/-- **C7** (corrected): in a script whose every line is block-safe
(blank, comment, simple command, or a further `while break <addr>`
header — never a stray closing brace), the presence of any `while break`
header line means its block can never be closed; then `Ast::new` fails
with the dedicated unterminated-block error, that error carries no line
number (unlike every other parse failure), and `Debugger::run_file`
executes no commands.  The blanket reading "every script containing an
unterminated block fails" is false: the successor-index computation of
src/debugger.rs line 90 can skip an unterminated block that follows a
terminated one (see the counterexample). -/
theorem unterminated_while_block (fuel : Nat) (lines : List (List Char))
    (hsafe : ∀ l ∈ lines, blockSafeLine l)
    (hblock : ∃ l ∈ lines, whileHeaderLine l)
    (hfuel : 3 * lines.length + 2 ≤ fuel) :
    Ast.new fuel lines = .error .unterminatedBlock ∧
    ParseErr.lineNumber .unterminatedBlock = none ∧
    Debugger.run_file_commands fuel lines = [] := by
  have hD : ∀ j, (hj : j < lines.length) →
      lines.getD j [] = lines[j] := by
    intro j hj
    rw [List.getD_eq_getElem?_getD, List.getElem?_eq_getElem hj]
    rfl
  have hs : ∀ j, 0 ≤ j → j < lines.length →
      blockSafeLine (lines.getD j []) := by
    intro j _ hj
    rw [hD j hj]
    exact hsafe _ (List.getElem_mem hj)
  have hex : ∃ j, 0 ≤ j ∧ j < lines.length ∧
      whileHeaderLine (lines.getD j []) := by
    obtain ⟨l, hl, hw⟩ := hblock
    obtain ⟨j, hj, hle⟩ := List.mem_iff_getElem.mp hl
    refine ⟨j, Nat.zero_le j, hj, ?_⟩
    rw [hD j hj, hle]
    exact hw
  have hnew : Ast.new fuel lines = .error .unterminatedBlock :=
    parse_all_unterminated lines fuel 0 [] hs hex (by omega)
  refine ⟨hnew, rfl, ?_⟩
  simp only [Debugger.run_file_commands, hnew]

/-- **C7** counterexamples to the spec's wording.  First, the one-line
script `while break 100 \x7b` fails with the unterminated-block error,
which carries no line number, unlike every other parse failure.  Second,
the script `p` / `while break 100 \x7b` / `\x7d` / `while break 100 \x7b`
contains an unterminated block on its last line yet parses successfully:
after the terminated block at line 2, src/debugger.rs line 90 advances to
`idx + size` where `size` is already the absolute post-block index, so
parsing resumes at line index 4 (end of input) and the unterminated
header at index 3 is never read. -/
theorem unterminated_block_counterexample :
    (Ast.new 8 ["while break 100 \x7b".data] =
        .error .unterminatedBlock ∧
      ParseErr.lineNumber .unterminatedBlock = none) ∧
    Ast.new 12 ["p".data, "while break 100 \x7b".data, "\x7d".data,
        "while break 100 \x7b".data] =
      .ok [Command.print [], Command.whileBreak 256 []] := by
  constructor
  · refine ⟨?_, rfl⟩
    have hw : whileHeaderLine "while break 100 \x7b".data :=
      ⟨"100".data, 256, by decide, by decide, by decide, by decide⟩
    refine parse_all_unterminated ["while break 100 \x7b".data] 8 0 []
      ?_ ⟨0, le_rfl, by decide, hw⟩ (by decide)
    intro j _ hj
    have hj0 : j = 0 := by
      simp only [List.length_cons, List.length_nil] at hj
      omega
    subst hj0
    exact Or.inr hw
  · have e1 : parse_command 11 0 ["p".data,
        "while break 100 \x7b".data, "\x7d".data,
        "while break 100 \x7b".data] false =
        .ok (some (.command (.print []), 1)) := by
      rw [parse_command.eq_def]
      rfl
    have ec : parse_command 7 2 ["p".data,
        "while break 100 \x7b".data, "\x7d".data,
        "while break 100 \x7b".data] true =
        .ok (some (.blockEnd, 3)) := by
      rw [parse_command.eq_def]
      rfl
    have eblk : parse_block 8 2 ["p".data,
        "while break 100 \x7b".data, "\x7d".data,
        "while break 100 \x7b".data] 256 [] =
        .ok (.whileBreak 256 [], 3) := by
      rw [parse_block.eq_def]
      dsimp only
      rw [ec]
    have epw : parse_while 9 1 ["p".data,
        "while break 100 \x7b".data, "\x7d".data,
        "while break 100 \x7b".data] =
        .ok (.whileBreak 256 [], 3) := by
      rw [parse_while.eq_def]
      dsimp only
      rw [if_neg (by decide), if_neg (by decide)]
      rw [show Ast.parse_addr ((split_whitespace (trim
          ((["p".data, "while break 100 \x7b".data, "\x7d".data,
            "while break 100 \x7b".data] : List (List Char)).getD 1
            []))).getD 2 []) = some 256 from by decide]
      dsimp only
      rw [if_neg (by decide)]
      exact eblk
    have e2 : parse_command 10 1 ["p".data,
        "while break 100 \x7b".data, "\x7d".data,
        "while break 100 \x7b".data] false =
        .ok (some (.command (.whileBreak 256 []), 4)) := by
      rw [parse_command.eq_def]
      dsimp only
      rw [if_neg (by decide), if_neg (by decide), if_neg (by decide),
        if_neg (by decide), if_neg (by decide), if_neg (by decide),
        if_neg (by decide), if_neg (by decide), if_neg (by decide),
        if_neg (by decide), if_neg (by decide), if_neg (by decide),
        if_pos (by decide)]
      rw [epw]
      rfl
    have e3 : parse_command 9 4 ["p".data,
        "while break 100 \x7b".data, "\x7d".data,
        "while break 100 \x7b".data] false = .ok none := by
      rw [parse_command.eq_def]
      rfl
    have a3 : parse_all 10 4 ["p".data,
        "while break 100 \x7b".data, "\x7d".data,
        "while break 100 \x7b".data]
        [Command.print [], Command.whileBreak 256 []] =
        .ok [Command.print [], Command.whileBreak 256 []] := by
      rw [parse_all.eq_def]
      dsimp only
      rw [e3]
    have a2 : parse_all 11 1 ["p".data,
        "while break 100 \x7b".data, "\x7d".data,
        "while break 100 \x7b".data] [Command.print []] =
        .ok [Command.print [], Command.whileBreak 256 []] := by
      rw [parse_all.eq_def]
      dsimp only
      rw [e2]
      exact a3
    have a1 : parse_all 12 0 ["p".data,
        "while break 100 \x7b".data, "\x7d".data,
        "while break 100 \x7b".data] [] =
        .ok [Command.print [], Command.whileBreak 256 []] := by
      rw [parse_all.eq_def]
      dsimp only
      rw [e1]
      exact a2
    exact a1

/-- Witness for `unterminated_while_block` on a script whose
unterminated block starts at a nonzero line index:
`p` / `while break 100 \x7b` / `p`. -/
theorem unterminated_while_block_witness :
    Ast.new 11 ["p".data, "while break 100 \x7b".data, "p".data] =
        .error .unterminatedBlock ∧
      ParseErr.lineNumber .unterminatedBlock = none ∧
      Debugger.run_file_commands 11
        ["p".data, "while break 100 \x7b".data, "p".data] = [] := by
  have hw : whileHeaderLine "while break 100 \x7b".data :=
    ⟨"100".data, 256, by decide, by decide, by decide, by decide⟩
  have hp : blockSafeLine "p".data :=
    Or.inl (Or.inr (Or.inr (Or.inr (Or.inr (Or.inr (Or.inl (by decide)))))))
  refine unterminated_while_block 11
    ["p".data, "while break 100 \x7b".data, "p".data] ?_
    ⟨"while break 100 \x7b".data, by decide, hw⟩ (by decide)
  intro l hl
  rcases List.mem_cons.mp hl with rfl | hl
  · exact hp
  rcases List.mem_cons.mp hl with rfl | hl
  · exact Or.inr hw
  rcases List.mem_cons.mp hl with rfl | hl
  · exact hp
  · exact absurd hl (List.not_mem_nil l)
